import Mathlib

/-!
Verification of the DeepMiner plan execution engine against its
natural-language specification.

The definitions below are a shallow embedding of the Python sources:

* `app/planning/simple.py` (`SimplePlanner`): step selection, executor
  selection, step execution, plan creation, progress rendering, and the
  top-level `execute` loop.
* `app/agent/web.py` (`WebAgent`): the `think` prompt mutation and the
  special-tool handler.
* `app/agent/dataminer.py` (`DataMiner`): the special-tool handler.
* `app/agent/swe.py` (`SWEAgent`).

Components of the repository that are not part of the provided sources
(the planning tool store, the step status enum, the tool collection and
the base tool-call agent) are modelled from the specification; each such
definition carries a doc comment starting with "Modelled from the spec".

Python specifics modelled explicitly: truthiness of strings and optional
values (empty string and `None` are falsy), in-place list mutation with
defensive growth, `dict` insertion-order iteration (association lists),
exceptions (as `Except String`), and `str.lower`/substring containment.
-/

/-! ## List helpers mirroring Python list primitives -/

/-! ## Step statuses and plans

`PlanStepStatus` lives in `app/planning/base.py`, which is not among the
provided sources; the enum and its active subset are modelled from the
spec (section 3): active statuses are NOT_STARTED, IN_PROGRESS, BLOCKED;
COMPLETED is terminal; a missing entry counts as NOT_STARTED. -/

/-! ## The plan store

`PlanningTool` lives in `app/tool/planning.py`, which is not among the
provided sources; its command protocol is modelled from the spec
(section 4.1). Plans are held in an insertion-ordered mapping from plan
id to plan, modelled as an association list. -/

/-! ## Step selection (`SimplePlanner._get_current_step_info`) -/

/-! ### Properties of the scan -/

/-- Python `xs[i] = a` for an index already in range; out of range leaves
the list unchanged (the sources only assign in range). -/
def setAt : List α → Nat → α → List α
  | [], _, _ => []
  | _ :: xs, 0, a => a :: xs
  | x :: xs, n + 1, a => x :: setAt xs n a
/-- Python `xs[i]` guarded by a length test: returns the default when the
index is out of range. -/
def getAt (d : α) : List α → Nat → α
  | [], _ => d
  | x :: _, 0 => x
  | _ :: xs, n + 1 => getAt d xs n
/-- Modelled from the spec: the step status enum of `app/planning/base.py`
(`PlanStepStatus`), with values NOT_STARTED, IN_PROGRESS, BLOCKED,
COMPLETED. -/
inductive StepStatus where
  | notStarted
  | inProgress
  | blocked
  | completed
deriving DecidableEq, Repr
/-- Modelled from the spec: `PlanStepStatus.get_active_statuses()`, the
selectable statuses. -/
def activeStatuses : List StepStatus :=
  [StepStatus.notStarted, StepStatus.inProgress, StepStatus.blocked]
/-- Membership test used by the step scan, mirroring the Python
`status in PlanStepStatus.get_active_statuses()`. -/
def isActiveStatus (s : StepStatus) : Bool :=
  activeStatuses.any (fun t => decide (s = t))
/-- One plan record as kept by the planning tool storage: title, steps,
and the parallel status and note arrays. -/
structure Plan where
  title : String
  steps : List String
  stepStatuses : List StepStatus
  stepNotes : List String
deriving DecidableEq, Repr
/-- The effective status of step `i`: the stored entry when the index is
in range of `step_statuses`, else NOT_STARTED (lines 291-294 of
`simple.py`). -/
def effStatus (p : Plan) (i : Nat) : StepStatus :=
  getAt StepStatus.notStarted p.stepStatuses i
/-- The in-memory plan storage (`planning_tool.plans`). -/
abbrev PlanStore := List (String × Plan)
def storeFind : PlanStore → String → Option Plan
  | [], _ => none
  | (k, p) :: rest, id => if k = id then some p else storeFind rest id
def storeSet : PlanStore → String → Plan → PlanStore
  | [], id, p => [(id, p)]
  | (k, q) :: rest, id, p =>
    if k = id then (id, p) :: rest else (k, q) :: storeSet rest id p
def storeRemove : PlanStore → String → PlanStore
  | [], _ => []
  | (k, q) :: rest, id => if k = id then rest else (k, q) :: storeRemove rest id
/-- Python `plan_id in planning_tool.plans`. -/
def storeMem (ps : PlanStore) (id : String) : Bool :=
  (storeFind ps id).isSome
/-- Grow a status list to length at least `n` by appending NOT_STARTED
entries. -/
def padStatuses (l : List StepStatus) (n : Nat) : List StepStatus :=
  l ++ List.replicate (n - l.length) StepStatus.notStarted
/-- Grow a note list to length at least `n` by appending empty strings. -/
def padNotes (l : List String) (n : Nat) : List String :=
  l ++ List.replicate (n - l.length) ""
/-- Modelled from the spec: the `mark_step` store command. It fails when
the plan id is unknown or the index is at or beyond the step count;
otherwise it grows the status and note arrays defensively up to the
index and records the new status. -/
def planMarkStep (ps : PlanStore) (id : String) (idx : Nat) (st : StepStatus) :
    Except String PlanStore :=
  match storeFind ps id with
  | none => Except.error ("No plan found with ID: " ++ id)
  | some p =>
    if idx ≥ p.steps.length then
      Except.error ("Invalid step index: " ++ toString idx)
    else
      Except.ok (storeSet ps id
        { p with
          stepStatuses := setAt (padStatuses p.stepStatuses (idx + 1)) idx st
          stepNotes := padNotes p.stepNotes (idx + 1) })
/-- Modelled from the spec: the `create` store command. It fails when the
plan id already exists; otherwise all statuses start NOT_STARTED and all
notes empty. -/
def planCreate (ps : PlanStore) (id title : String) (steps : List String) :
    Except String PlanStore :=
  match storeFind ps id with
  | some _ => Except.error ("A plan with ID " ++ id ++ " already exists")
  | none =>
    Except.ok (storeSet ps id
      { title := title
        steps := steps
        stepStatuses := List.replicate steps.length StepStatus.notStarted
        stepNotes := List.replicate steps.length "" })
/-- The scan of lines 290-296 of `simple.py`: starting at index `i` with
`k` steps left to inspect, return the first index whose effective status
is active. -/
def scanActive (p : Plan) : Nat → Nat → Option Nat
  | _, 0 => none
  | i, k + 1 =>
    if isActiveStatus (effStatus p i) then some i else scanActive p (i + 1) k
/-- The in-memory fallback of lines 310-318 of `simple.py`, applied when
the `mark_step` store command raises while marking a step IN_PROGRESS:
assign in place when the index is in range, else grow with NOT_STARTED
entries and append IN_PROGRESS. -/
def fallbackMarkInProgress (sts : List StepStatus) (i : Nat) : List StepStatus :=
  if i < sts.length then setAt sts i StepStatus.inProgress
  else
    sts ++ List.replicate (i - sts.length) StepStatus.notStarted
        ++ [StepStatus.inProgress]
/-- `SimplePlanner._get_current_step_info` (lines 271-326 of `simple.py`).
The `storeFails` flag is the environment: whether the `mark_step` store
command raises. Returns the selected index and step text together with
the updated store. -/
def getCurrentStepInfo (storeFails : Bool) (ps : PlanStore) (planId : String) :
    (Option Nat × Option String) × PlanStore :=
  if planId = "" then ((none, none), ps)
  else
    match storeFind ps planId with
    | none => ((none, none), ps)
    | some p =>
      match scanActive p 0 p.steps.length with
      | none => ((none, none), ps)
      | some i =>
        let markRes : Except String PlanStore :=
          if storeFails then Except.error "mark_step failed"
          else planMarkStep ps planId i StepStatus.inProgress
        let ps2 : PlanStore :=
          match markRes with
          | Except.ok psOk => psOk
          | Except.error _ =>
            storeSet ps planId
              { p with stepStatuses := fallbackMarkInProgress p.stepStatuses i }
        ((some i, some (getAt "" p.steps i)), ps2)

/-- The in-memory fallback of lines 375-386 of `simple.py`, applied when
the `mark_step` store command raises while marking the current step
COMPLETED: grow with NOT_STARTED entries until the index is in range,
then assign COMPLETED. -/
def fallbackMarkCompleted (sts : List StepStatus) (idx : Nat) : List StepStatus :=
  setAt (sts ++ List.replicate (idx + 1 - sts.length) StepStatus.notStarted)
    idx StepStatus.completed

/-- `SimplePlanner._mark_step_completed` (lines 357-386 of `simple.py`):
no-op when the current step index is None; otherwise try the store
command, and on failure mutate the stored plan directly when the plan id
is present. -/
def markStepCompleted (storeFails : Bool) (ps : PlanStore) (planId : String) :
    Option Nat → PlanStore
  | none => ps
  | some idx =>
    match (if storeFails then Except.error "mark_step failed"
           else planMarkStep ps planId idx StepStatus.completed) with
    | Except.ok psOk => psOk
    | Except.error _ =>
      match storeFind ps planId with
      | some p =>
        storeSet ps planId
          { p with stepStatuses := fallbackMarkCompleted p.stepStatuses idx }
      | none => ps

/-- Python rendering of the optional current step index inside the error
message of `_execute_step`. -/
def idxStr : Option Nat → String
  | some i => toString i
  | none => "None"

/-- `SimplePlanner._execute_step` (lines 328-355 of `simple.py`). The
run outcome of the chosen executor is the environment. On a normal
return the step is marked COMPLETED and the result returned; when `run`
raises, the exception text becomes the textual result and no marking
happens. -/
def executeStep (storeFails : Bool) (ps : PlanStore) (planId : String)
    (curIdx : Option Nat) (runOutcome : Except String String) :
    String × PlanStore :=
  match runOutcome with
  | Except.ok r => (r, markStepCompleted storeFails ps planId curIdx)
  | Except.error e =>
    ("Error executing step " ++ idxStr curIdx ++ ": " ++ e, ps)

/-! ## Executor selection (`get_executor`) -/

/-- The step info dictionary: optional `type` tag and optional `text`.
The engine only reads these two keys. -/
structure StepInfo where
  type? : Option String
  text? : Option String
deriving DecidableEq, Repr

/-- Python `str.lower` (faithful on the ASCII keys the engine compares). -/
def pyLower (s : String) : String := String.mk (s.toList.map Char.toLower)

/-- Whether the first character list is an initial run of the second. -/
def leadEq : List Char → List Char → Bool
  | [], _ => true
  | _ :: _, [] => false
  | a :: as, b :: bs => a == b && leadEq as bs

/-- Whether `a` occurs contiguously inside `b`. -/
def occursIn (a : List Char) : List Char → Bool
  | [] => leadEq a []
  | c :: bs => leadEq a (c :: bs) || occursIn a bs

/-- Python `a in b` on strings: substring containment. -/
def strIn (a b : String) : Bool := occursIn a.toList b.toList

/-- The bidirectional case-insensitive containment test of line 95 of
`simple.py`: `key.lower() in resp.lower() or resp.lower() in
key.lower()`. -/
def fuzzyMatch (key resp : String) : Bool :=
  strIn (pyLower key) (pyLower resp) || strIn (pyLower resp) (pyLower key)

/-- Python `k in agents` for the agents dict (insertion-ordered). -/
def keyMem {A : Type} (agents : List (String × A)) (k : String) : Bool :=
  agents.any (fun kv => decide (kv.1 = k))

/-- Python `agents[k]` as an optional lookup. -/
def lookupA {A : Type} (agents : List (String × A)) (k : String) : Option A :=
  (agents.find? (fun kv => decide (kv.1 = k))).map (fun kv => kv.2)

/-- `SimplePlanner._get_step_executor_with_llm` (lines 47-101 of
`simple.py`), with the free-text oracle response `resp` as environment.
Returns the recommended agent key, or none: the step info must be truthy
and carry a `text` key; an exact key match wins; else the first
fuzzy-matching key in dict order; else none. -/
def getStepExecutorWithLLM {A : Type} (agents : List (String × A))
    (resp : String) : Option StepInfo → Option String
  | none => none
  | some si =>
    match si.text? with
    | none => none
    | some _ =>
      if keyMem agents resp then some resp
      else
        match agents.find? (fun kv => fuzzyMatch kv.1 resp) with
        | some kv => some kv.1
        | none => none

/-- The positional default of lines 115-119 and 135-140 of `simple.py`:
the first `executor_keys` entry present in `agents`, else the primary
agent. -/
def defaultExecutor {A : Type} (agents : List (String × A))
    (ks : List String) (primary : A) : A :=
  match ks.find? (fun k => keyMem agents k) with
  | some k => (lookupA agents k).getD primary
  | none => primary

/-- The oracle tier of `get_executor` (lines 127-140): use the
recommendation when it is truthy and a known key, else the positional
default. -/
def llmTier {A : Type} (agents : List (String × A)) (ks : List String)
    (primary : A) (resp : String) (si : StepInfo) : A :=
  match getStepExecutorWithLLM agents resp (some si) with
  | some r =>
    if r ≠ "" ∧ keyMem agents r = true then (lookupA agents r).getD primary
    else defaultExecutor agents ks primary
  | none => defaultExecutor agents ks primary

/-- `SimplePlanner.get_executor` (lines 103-140 of `simple.py`): falsy
step info takes the positional default; a truthy non-empty `type` that
is a known key is used directly; otherwise the oracle recommendation
tier runs. -/
def getExecutor {A : Type} (agents : List (String × A)) (ks : List String)
    (primary : A) (resp : String) : Option StepInfo → A
  | none => defaultExecutor agents ks primary
  | some si =>
    match si.type? with
    | some t =>
      if t ≠ "" ∧ keyMem agents t = true then (lookupA agents t).getD primary
      else llmTier agents ks primary resp si
    | none => llmTier agents ks primary resp si

/-! ## Plan creation (`_create_initial_plan`) -/

/-- The planning tool command protocol (spec section 6), as parsed from
the JSON arguments of an oracle tool call. -/
inductive PlanCmd where
  | create (title : String) (steps : List String)
  | markStep (idx : Nat) (st : StepStatus)
  | get
  | delete
deriving DecidableEq, Repr

/-- One oracle tool call: the function name and the parsed planning
command; `none` models JSON arguments that fail to parse (skipped with
`continue` at lines 230-232 of `simple.py`). -/
structure ToolCall where
  name : String
  cmd : Option PlanCmd
deriving DecidableEq, Repr

/-- Modelled from the spec: dispatch of the planning tool command
protocol (`PlanningTool.execute`) with the plan id forced by the engine;
`get` and `delete` fail on an unknown id. -/
def planningToolExecute (ps : PlanStore) (planId : String) :
    PlanCmd → Except String PlanStore
  | PlanCmd.create title steps => planCreate ps planId title steps
  | PlanCmd.markStep idx st => planMarkStep ps planId idx st
  | PlanCmd.get =>
    match storeFind ps planId with
    | some _ => Except.ok ps
    | none => Except.error ("No plan found with ID: " ++ planId)
  | PlanCmd.delete =>
    match storeFind ps planId with
    | some _ => Except.ok (storeRemove ps planId)
    | none => Except.error ("No plan found with ID: " ++ planId)

/-- The loop of lines 222-241 of `simple.py`: the first tool call named
"planning" whose arguments parse is executed; unparseable planning calls
and calls with other names are skipped. -/
def findUsablePlanning : List ToolCall → Option PlanCmd
  | [] => none
  | c :: rest =>
    if c.name = "planning" then
      match c.cmd with
      | some cmd => some cmd
      | none => findUsablePlanning rest
    else findUsablePlanning rest

/-- `has_cjk_chars` (lines 247-248 of `simple.py`): any character with
code point above 0x3000. -/
def hasCjkChars (s : String) : Bool :=
  s.toList.any (fun c => c.toNat > 0x3000)

/-- `has_cyrillic_chars` (lines 250-251 of `simple.py`): any character
in U+0400 to U+04FF. -/
def hasCyrillicChars (s : String) : Bool :=
  s.toList.any (fun c => 0x0400 ≤ c.toNat && c.toNat ≤ 0x04FF)

/-- The language-dependent default step texts of lines 253-259 of
`simple.py`. -/
def defaultSteps (request : String) : List String :=
  if hasCjkChars request then ["分析需求", "执行任务", "验证结果"]
  else if hasCyrillicChars request then
    ["Анализ запроса", "Выполнение задачи", "Проверка результатов"]
  else ["Analyze request", "Execute task", "Verify results"]

/-- The default plan title of line 266 of `simple.py`. -/
def defaultTitle (request : String) : String :=
  "Plan for: " ++ String.mk (request.toList.take 50)
    ++ (if request.length > 50 then "..." else "")

/-- `SimplePlanner._create_initial_plan` (lines 184-269 of `simple.py`),
with the oracle tool-selecting response as environment: execute the
first usable planning call, else create the deterministic default
3-step plan. -/
def createInitialPlan (ps : PlanStore) (planId request : String)
    (toolCalls : List ToolCall) : Except String PlanStore :=
  match findUsablePlanning toolCalls with
  | some cmd => planningToolExecute ps planId cmd
  | none => planCreate ps planId (defaultTitle request) (defaultSteps request)

/-! ## Plan rendering (`_generate_plan_text_from_storage`) -/

/-- Division as the Python `/` operator: raises on a zero divisor. -/
def pyDivQ (a b : ℚ) : Except String ℚ :=
  if b = 0 then Except.error "ZeroDivisionError" else Except.ok (a / b)

/-- The per-status tally of lines 418-422 of `simple.py`. -/
def countStatus : List StepStatus → StepStatus → Nat
  | [], _ => 0
  | x :: xs, s => (if x = s then 1 else 0) + countStatus xs s

/-- Modelled from the spec: `PlanStepStatus.get_status_marks()`; the
exact glyphs are an implementation choice, stable and distinct per
status. -/
def statusMark : StepStatus → String
  | StepStatus.completed => "[x]"
  | StepStatus.inProgress => "[->]"
  | StepStatus.blocked => "[!]"
  | StepStatus.notStarted => "[ ]"

/-- Python `zip` over three parallel lists, truncating to the shortest. -/
def zip3 : List α → List β → List γ → List (α × β × γ)
  | a :: as, b :: bs, c :: cs => (a, b, c) :: zip3 as bs cs
  | _, _, _ => []

/-- The per-step lines of the rendering (lines 440-450 of `simple.py`). -/
def stepLines : Nat → List (String × StepStatus × String) → String
  | _, [] => ""
  | i, (step, st, note) :: rest =>
    let head := toString i ++ ". " ++ statusMark st ++ " " ++ step ++ "\n"
    let noteLine := if note ≠ "" then "   Notes: " ++ note ++ "\n" else ""
    head ++ noteLine ++ stepLines (i + 1) rest

/-- A fixed-point rendering standing in for the CPython float format
with one decimal; the progress claims concern the numeric value, not the
display. -/
def fmt1 (q : ℚ) : String :=
  let n : Int := Int.floor (q * 10)
  toString (n / 10) ++ "." ++ toString (n % 10)

def repeatChar (c : Char) (n : Nat) : String := String.mk (List.replicate n c)

/-- The body of `SimplePlanner._generate_plan_text_from_storage` (lines
399-452 of `simple.py`), with the float division modelled as checked
rational division so a division error would surface as `Except.error`.
Returns the progress value alongside the rendered text. -/
def planTextRender (planId : String) (p : Plan) (progress : ℚ) : String :=
  let steps := p.steps
  let sts := padStatuses p.stepStatuses steps.length
  let nts := padNotes p.stepNotes steps.length
  let completed := countStatus sts StepStatus.completed
  let total := steps.length
  let header := "Plan: " ++ p.title ++ " (ID: " ++ planId ++ ")\n"
  header ++ repeatChar '=' header.length ++ "\n\n"
    ++ "Progress: " ++ toString completed ++ "/" ++ toString total
    ++ " steps completed (" ++ fmt1 progress ++ "%)\n"
    ++ "Status: " ++ toString (countStatus sts StepStatus.completed)
    ++ " completed, " ++ toString (countStatus sts StepStatus.inProgress)
    ++ " in progress, " ++ toString (countStatus sts StepStatus.blocked)
    ++ " blocked, " ++ toString (countStatus sts StepStatus.notStarted)
    ++ " not started\n\n" ++ "Steps:\n"
    ++ stepLines 0 (zip3 steps sts nts)

def planTextBody (planId : String) (p : Plan) : Except String (ℚ × String) :=
  let sts := padStatuses p.stepStatuses p.steps.length
  let completed := countStatus sts StepStatus.completed
  let total := p.steps.length
  (if total > 0 then
      (pyDivQ (completed : ℚ) (total : ℚ)).map (fun x => x * 100)
    else Except.ok 0).map (fun progress =>
      (progress, planTextRender planId p progress))

/-- `SimplePlanner._generate_plan_text_from_storage` with its outer
`try/except` (lines 399-455): a missing plan or an internal error map to
error strings instead of exceptions. -/
def generatePlanTextFromStorage (ps : PlanStore) (planId : String) : String :=
  match storeFind ps planId with
  | none => "Error: Plan with ID " ++ planId ++ " not found"
  | some p =>
    match planTextBody planId p with
    | Except.ok r => r.2
    | Except.error _ => "Error: Unable to retrieve plan with ID " ++ planId

/-! ## The main loop and `execute` -/

/-- The per-iteration environment of the main loop: failure of the two
`mark_step` store commands, the oracle reply (or raise) of the executor
recommendation, the executor run outcome, and whether the executor
reports FINISHED after the step. -/
structure StepEnv where
  inProgFails : Bool
  compFails : Bool
  oracleExec : Except String String
  runOutcome : Except String String
  execFinished : Bool

/-- The run environment of the engine: its plan id, the agent registry,
executor keys, the finalization text, and a stream of per-iteration
environments. -/
structure EngineEnv (A : Type) where
  planId : String
  agents : List (String × A)
  executorKeys : List String
  finalizeText : String
  stepEnvs : Nat → StepEnv

/-- Outcome of the engine as seen by the caller: a returned string, a
propagated exception, or fuel exhaustion of the shallow embedding (the
Python loop would still be running). -/
inductive LoopOut where
  | done (s : String)
  | raised (e : String)
  | spin
deriving DecidableEq, Repr

/-- The main loop of `SimplePlanner.execute` (lines 160-177 of
`simple.py`): select the current step (marking it IN_PROGRESS), stop
with finalization when none remains, pick the executor (the oracle call
may raise), execute the step, accumulate the result, and stop early when
the executor reports FINISHED. -/
def loopRun {A : Type} (env : EngineEnv A) (primary : A) :
    Nat → Nat → PlanStore → String → LoopOut
  | 0, _, _, _ => LoopOut.spin
  | fuel + 1, it, ps, acc =>
    let se := env.stepEnvs it
    match getCurrentStepInfo se.inProgFails ps env.planId with
    | ((none, _), _) => LoopOut.done (acc ++ env.finalizeText)
    | ((some idx, text?), ps1) =>
      let si : StepInfo := StepInfo.mk none (some (text?.getD "Execute next task"))
      match se.oracleExec with
      | Except.error e => LoopOut.raised e
      | Except.ok resp =>
        let _executor := getExecutor env.agents env.executorKeys primary resp (some si)
        let res := executeStep se.compFails ps1 env.planId (some idx) se.runOutcome
        let acc2 := acc ++ res.1 ++ "\n"
        if se.execFinished then LoopOut.done acc2
        else loopRun env primary fuel (it + 1) res.2 acc2

/-- The body of `SimplePlanner.execute` (lines 144-179 of `simple.py`)
before the outermost exception boundary: check the primary agent, create
the plan when input is truthy, verify the plan id is stored, then run
the main loop. -/
def executeBody {A : Type} (env : EngineEnv A) (primary? : Option A)
    (inputText : String) (askToolOutcome : Except String (List ToolCall))
    (ps0 : PlanStore) (fuel : Nat) : LoopOut :=
  match primary? with
  | none => LoopOut.raised "No primary agent available"
  | some primary =>
    if inputText = "" then loopRun env primary fuel 0 ps0 ""
    else
      match askToolOutcome with
      | Except.error e => LoopOut.raised e
      | Except.ok calls =>
        match createInitialPlan ps0 env.planId inputText calls with
        | Except.error e => LoopOut.raised e
        | Except.ok ps1 =>
          if storeMem ps1 env.planId then loopRun env primary fuel 0 ps1 ""
          else LoopOut.done ("Failed to create plan for: " ++ inputText)

/-- `SimplePlanner.execute` with its outermost exception boundary (lines
180-182 of `simple.py`): any raised exception becomes the failure string
"Execution failed: ...". -/
def executeMethod {A : Type} (env : EngineEnv A) (primary? : Option A)
    (inputText : String) (askToolOutcome : Except String (List ToolCall))
    (ps0 : PlanStore) (fuel : Nat) : LoopOut :=
  match executeBody env primary? inputText askToolOutcome ps0 fuel with
  | LoopOut.raised e => LoopOut.done ("Execution failed: " ++ e)
  | out => out

/-! ## Agent special-tool handlers -/

/-- Agent lifecycle states of the agent loop (spec section 4.3). -/
inductive AgState where
  | idle
  | running
  | finished
deriving DecidableEq, Repr

/-- Modelled from the spec: `ToolCollection.get_tool`, returning the
tool by name or None when absent (the WebAgent source guards the result
with a truthiness test, so absence yields a falsy value, not an error). -/
def getTool (tools : List String) (name : String) : Option String :=
  tools.find? (fun t => decide (t = name))

/-- The tool names of the WebAgent collection (`web.py` lines 28-32). -/
def webAgentTools : List String :=
  ["browser_use", "web_search", "file_saver", "terminate"]

/-- `WebAgent.special_tool_names` (`web.py` line 33). -/
def webAgentSpecialTools : List String := ["browser_use", "terminate"]

/-- `SWEAgent.special_tool_names` (`swe.py` line 24). -/
def sweAgentSpecialTools : List String := ["terminate"]

/-- The tool names of the DataMiner collection (`dataminer.py` lines
41-45): no browser tool is registered. -/
def dataMinerTools : List String :=
  ["python_execute", "create_chat_completion", "file_saver", "terminate"]

/-- Modelled from the spec: DataMiner does not override the special tool
subset, which always contains the termination tool. -/
def dataMinerSpecialTools : List String := ["terminate"]

/-- Modelled from the spec: `_is_special_tool`, membership in the
configured special subset. -/
def isSpecialTool (specials : List String) (name : String) : Bool :=
  specials.any (fun t => decide (t = name))

/-- Modelled from the spec: the base handler of the tool-call agent loop
transitions the agent to FINISHED on a special tool. -/
def baseHandleSpecialTool (specials : List String) (name : String)
    (st : AgState) : AgState :=
  if isSpecialTool specials name then AgState.finished else st

/-- `WebAgent._handle_special_tool` (lines 95-109 of `web.py`): no-op on
a non-special name; otherwise clean up the browser tool when present and
defer to the base handler. The Bool records whether browser cleanup ran. -/
def webHandleSpecialTool (name : String) (st : AgState) :
    Except String (Bool × AgState) :=
  if isSpecialTool webAgentSpecialTools name = false then Except.ok (false, st)
  else
    match getTool webAgentTools "browser_use" with
    | some _ => Except.ok (true, baseHandleSpecialTool webAgentSpecialTools name st)
    | none => Except.ok (false, baseHandleSpecialTool webAgentSpecialTools name st)

/-- `DataMiner._handle_special_tool` (lines 47-52 of `dataminer.py`):
the browser tool is looked up in DataMiner's own collection and cleanup
is invoked on the result without a None guard; when the lookup misses,
the attribute access raises. -/
def dataMinerHandleSpecialTool (name : String) (st : AgState) :
    Except String (Bool × AgState) :=
  if isSpecialTool dataMinerSpecialTools name = false then Except.ok (false, st)
  else
    match getTool dataMinerTools "browser_use" with
    | some _ =>
      Except.ok (true, baseHandleSpecialTool dataMinerSpecialTools name st)
    | none => Except.error "AttributeError: NoneType has no attribute cleanup"

/-- `SWEAgent` does not override the handler; it uses the base handler
with its special tools. -/
def sweHandleSpecialTool (name : String) (st : AgState) :
    Except String (Bool × AgState) :=
  Except.ok (false, baseHandleSpecialTool sweAgentSpecialTools name st)

/-! ## WebAgent.think -/

/-- The mutable WebAgent fields read and written by `think`. -/
structure WebAgentState where
  currentUrl : Option String
  nextStepPrompt : String
deriving DecidableEq, Repr

/-- Python truthiness of an optional string: None and the empty string
are falsy. -/
def pyTruthyStr : Option String → Bool
  | none => false
  | some s => decide (s ≠ "")

/-- The context prompt computed by `WebAgent.think` (lines 43-46 of
`web.py`). -/
def webThinkPrompt (url? : Option String) (p : String) : String :=
  if pyTruthyStr url? then "Current URL: " ++ url?.getD "" ++ "\n" ++ p else p

/-- `WebAgent.think` (lines 40-51 of `web.py`) persistently assigns the
computed context prompt back to `next_step_prompt` (line 48) before
delegating to the parent think. -/
def webThink (st : WebAgentState) : WebAgentState :=
  { st with nextStepPrompt := webThinkPrompt st.currentUrl st.nextStepPrompt }

/-! ## Theorems -/

theorem setAt_length (l : List α) (n : Nat) (a : α) :
    (setAt l n a).length = l.length := by
  induction l generalizing n with
  | nil => rfl
  | cons x xs ih =>
    cases n with
    | zero => rfl
    | succ m => simp [setAt, ih]

theorem getAt_setAt_self (l : List α) (n : Nat) (a d : α) (h : n < l.length) :
    getAt d (setAt l n a) n = a := by
  induction l generalizing n with
  | nil => simp at h
  | cons x xs ih =>
    cases n with
    | zero => rfl
    | succ m =>
      simp only [List.length_cons, Nat.succ_lt_succ_iff] at h
      simpa [setAt, getAt] using ih m h

theorem getAt_append_left (l t : List α) (n : Nat) (d : α) (h : n < l.length) :
    getAt d (l ++ t) n = getAt d l n := by
  induction l generalizing n with
  | nil => simp at h
  | cons x xs ih =>
    cases n with
    | zero => rfl
    | succ m =>
      simp only [List.length_cons, Nat.succ_lt_succ_iff] at h
      simpa [getAt] using ih m h

theorem getAt_append_mid (l : List α) (a : α) (t : List α) (d : α) :
    getAt d (l ++ a :: t) l.length = a := by
  induction l with
  | nil => rfl
  | cons x xs ih => simpa [getAt] using ih

theorem getAt_append_right (l t : List α) (n : Nat) (d : α) (h : l.length ≤ n) :
    getAt d (l ++ t) n = getAt d t (n - l.length) := by
  induction l generalizing n with
  | nil => simp
  | cons x xs ih =>
    cases n with
    | zero => simp at h
    | succ m =>
      simp only [List.length_cons, Nat.succ_le_succ_iff] at h
      simpa [getAt] using ih m h

theorem getAt_replicate (n k : Nat) (d a : α) (h : k < n) :
    getAt d (List.replicate n a) k = a := by
  induction n generalizing k with
  | zero => simp at h
  | succ m ih =>
    cases k with
    | zero => rfl
    | succ j =>
      simp only [Nat.succ_lt_succ_iff] at h
      simpa [List.replicate, getAt] using ih j h

theorem isActiveStatus_eq_false_iff (s : StepStatus) :
    isActiveStatus s = false ↔ s = StepStatus.completed := by
  cases s <;> simp [isActiveStatus, activeStatuses]

theorem storeFind_storeSet_self (ps : PlanStore) (id : String) (p : Plan) :
    storeFind (storeSet ps id p) id = some p := by
  induction ps with
  | nil => simp [storeSet, storeFind]
  | cons kv rest ih =>
    obtain ⟨k, q⟩ := kv
    by_cases h : k = id <;> simp [storeSet, storeFind, h, ih]

theorem padStatuses_length (l : List StepStatus) (n : Nat) :
    (padStatuses l n).length = max l.length n := by
  simp only [padStatuses, List.length_append, List.length_replicate]
  omega

theorem scanActive_eq_none_iff (p : Plan) (i k : Nat) :
    scanActive p i k = none ↔
      ∀ m, i ≤ m → m < i + k → isActiveStatus (effStatus p m) = false := by
  induction k generalizing i with
  | zero =>
    simp only [scanActive]
    constructor
    · intro _ m h1 h2; omega
    · intro _; trivial
  | succ k ih =>
    simp only [scanActive]
    by_cases h : isActiveStatus (effStatus p i) = true
    · simp only [h, if_true]
      constructor
      · intro hc; exact absurd hc (by simp)
      · intro hall
        have := hall i (Nat.le_refl i) (by omega)
        rw [h] at this; exact absurd this (by simp)
    · have hfalse : isActiveStatus (effStatus p i) = false := by
        revert h; cases isActiveStatus (effStatus p i) <;> simp
      simp only [hfalse, Bool.false_eq_true, if_false, ih]
      constructor
      · intro hall m h1 h2
        rcases Nat.eq_or_lt_of_le h1 with heq | hlt
        · exact heq ▸ hfalse
        · exact hall m hlt (by omega)
      · intro hall m h1 h2
        exact hall m (by omega) (by omega)

theorem scanActive_eq_some (p : Plan) (i k j : Nat)
    (h : scanActive p i k = some j) :
    i ≤ j ∧ j < i + k ∧ isActiveStatus (effStatus p j) = true ∧
      ∀ m, i ≤ m → m < j → isActiveStatus (effStatus p m) = false := by
  induction k generalizing i with
  | zero => simp [scanActive] at h
  | succ k ih =>
    simp only [scanActive] at h
    by_cases ha : isActiveStatus (effStatus p i) = true
    · simp only [ha, if_true, Option.some.injEq] at h
      subst h
      exact ⟨Nat.le_refl i, by omega, ha, fun m h1 h2 => by omega⟩
    · have hfalse : isActiveStatus (effStatus p i) = false := by
        revert ha; cases isActiveStatus (effStatus p i) <;> simp
      simp only [hfalse, Bool.false_eq_true, if_false] at h
      obtain ⟨h1, h2, h3, h4⟩ := ih (i + 1) h
      refine ⟨by omega, by omega, h3, ?_⟩
      intro m hm1 hm2
      rcases Nat.eq_or_lt_of_le hm1 with heq | hlt
      · exact heq ▸ hfalse
      · exact h4 m hlt hm2

theorem getAt_fallbackMarkInProgress (sts : List StepStatus) (i : Nat) :
    getAt StepStatus.notStarted (fallbackMarkInProgress sts i) i
      = StepStatus.inProgress := by
  unfold fallbackMarkInProgress
  by_cases h : i < sts.length
  · rw [if_pos h]
    exact getAt_setAt_self _ _ _ _ h
  · rw [if_neg h]
    have hlen :
        (sts ++ List.replicate (i - sts.length) StepStatus.notStarted).length = i := by
      simp only [List.length_append, List.length_replicate]
      omega
    have := getAt_append_mid
      (sts ++ List.replicate (i - sts.length) StepStatus.notStarted)
      StepStatus.inProgress [] StepStatus.notStarted
    rw [hlen] at this
    exact this

theorem getAt_setAt_pad (sts : List StepStatus) (i : Nat) (st : StepStatus) :
    getAt StepStatus.notStarted (setAt (padStatuses sts (i + 1)) i st) i = st := by
  apply getAt_setAt_self
  rw [padStatuses_length]
  omega

theorem planMarkStep_ok (ps : PlanStore) (id : String) (p : Plan) (i : Nat)
    (st : StepStatus) (hp : storeFind ps id = some p) (hi : i < p.steps.length) :
    planMarkStep ps id i st = Except.ok (storeSet ps id
      { p with
        stepStatuses := setAt (padStatuses p.stepStatuses (i + 1)) i st
        stepNotes := padNotes p.stepNotes (i + 1) }) := by
  unfold planMarkStep
  rw [hp]
  exact if_neg (Nat.not_le.mpr hi)

/-- After step selection picked index `i`, the plan stored under `planId`
has status IN_PROGRESS at `i`, whether the `mark_step` store command
succeeded or failed. -/
theorem getCurrentStepInfo_marks (sf : Bool) (ps : PlanStore) (planId : String)
    (p : Plan) (i : Nat) (hid : planId ≠ "") (hp : storeFind ps planId = some p)
    (hscan : scanActive p 0 p.steps.length = some i) :
    storeFind (getCurrentStepInfo sf ps planId).2 planId
      = some (if sf then
          { p with stepStatuses := fallbackMarkInProgress p.stepStatuses i }
        else
          { p with
            stepStatuses :=
              setAt (padStatuses p.stepStatuses (i + 1)) i StepStatus.inProgress
            stepNotes := padNotes p.stepNotes (i + 1) }) := by
  have hi : i < p.steps.length := by
    have := scanActive_eq_some p 0 p.steps.length i hscan
    omega
  unfold getCurrentStepInfo
  rw [if_neg hid, hp]
  simp only [hscan]
  cases sf with
  | true =>
    simp only [if_true, reduceIte]
    exact storeFind_storeSet_self ps planId _
  | false =>
    simp only [Bool.false_eq_true, reduceIte,
      planMarkStep_ok ps planId p i StepStatus.inProgress hp hi]
    exact storeFind_storeSet_self ps planId _

/-- C1: for every plan, `_get_current_step_info` returns the lowest index
whose status is NOT_STARTED, IN_PROGRESS, or BLOCKED, marks that step
IN_PROGRESS (via the store command, or the in-memory fallback when the
command fails), and returns `(None, None)` if and only if every step is
COMPLETED or the step list is empty; an index with no entry in
`step_statuses` counts as NOT_STARTED (this convention is `effStatus`). -/
theorem spec_c1_step_selection (sf : Bool) (ps : PlanStore) (planId : String)
    (p : Plan) (hid : planId ≠ "") (hp : storeFind ps planId = some p) :
    ((getCurrentStepInfo sf ps planId).1 = (none, none) ↔
      ((∀ i, i < p.steps.length → effStatus p i = StepStatus.completed)
        ∨ p.steps = []))
    ∧ (∀ i, (getCurrentStepInfo sf ps planId).1.1 = some i →
        isActiveStatus (effStatus p i) = true
        ∧ (∀ j, j < i → effStatus p j = StepStatus.completed)
        ∧ (getCurrentStepInfo sf ps planId).1.2 = some (getAt "" p.steps i)
        ∧ ∃ p2, storeFind (getCurrentStepInfo sf ps planId).2 planId = some p2
            ∧ effStatus p2 i = StepStatus.inProgress) := by
  cases hscan : scanActive p 0 p.steps.length with
  | none =>
    have hfst : (getCurrentStepInfo sf ps planId).1 = (none, none) := by
      unfold getCurrentStepInfo
      rw [if_neg hid, hp]
      simp only [hscan]
    constructor
    · rw [hfst]
      constructor
      · intro _
        left
        intro i hi
        have := (scanActive_eq_none_iff p 0 p.steps.length).mp hscan i
          (Nat.zero_le i) (by omega)
        exact (isActiveStatus_eq_false_iff _).mp this
      · intro _; rfl
    · intro i hi
      rw [hfst] at hi
      simp at hi
  | some i =>
    have hprops := scanActive_eq_some p 0 p.steps.length i hscan
    have hfst : (getCurrentStepInfo sf ps planId).1
        = (some i, some (getAt "" p.steps i)) := by
      unfold getCurrentStepInfo
      rw [if_neg hid, hp]
      simp only [hscan]
    constructor
    · rw [hfst]
      constructor
      · intro h; simp at h
      · rintro (hall | hempty)
        · have hc := hall i (by omega)
          have := (isActiveStatus_eq_false_iff (effStatus p i)).mpr hc
          rw [hprops.2.2.1] at this
          simp at this
        · have : p.steps.length = 0 := by rw [hempty]; rfl
          omega
    · intro j hj
      rw [hfst] at hj
      simp only [Option.some.injEq] at hj
      subst hj
      refine ⟨hprops.2.2.1, ?_, ?_, ?_⟩
      · intro k hk
        exact (isActiveStatus_eq_false_iff _).mp
          (hprops.2.2.2 k (Nat.zero_le k) hk)
      · rw [hfst]
      · refine ⟨_, getCurrentStepInfo_marks sf ps planId p i hid hp hscan, ?_⟩
        cases sf with
        | true =>
          simp only [if_true, reduceIte]
          exact getAt_fallbackMarkInProgress p.stepStatuses i
        | false =>
          simp only [Bool.false_eq_true, reduceIte]
          exact getAt_setAt_pad p.stepStatuses i StepStatus.inProgress

theorem spec_c1_step_selection_witness :
    (getCurrentStepInfo false
      [("plan_1", Plan.mk "T" ["a", "b"]
        [StepStatus.completed, StepStatus.notStarted] ["", ""])] "plan_1").1.1
      = some 1
    ∧ ∃ p2, storeFind (getCurrentStepInfo false
        [("plan_1", Plan.mk "T" ["a", "b"]
          [StepStatus.completed, StepStatus.notStarted] ["", ""])] "plan_1").2
          "plan_1" = some p2
        ∧ effStatus p2 1 = StepStatus.inProgress := by
  refine ⟨by decide, ?_⟩
  exact ((spec_c1_step_selection false
    [("plan_1", Plan.mk "T" ["a", "b"]
      [StepStatus.completed, StepStatus.notStarted] ["", ""])] "plan_1"
    (Plan.mk "T" ["a", "b"] [StepStatus.completed, StepStatus.notStarted] ["", ""])
    (by decide) (by decide)).2 1 (by decide)).2.2.2

theorem getAt_setAt_ne (l : List α) (m n : Nat) (a d : α) (h : m ≠ n) :
    getAt d (setAt l n a) m = getAt d l m := by
  induction l generalizing m n with
  | nil => rfl
  | cons x xs ih =>
    cases n with
    | zero =>
      cases m with
      | zero => exact absurd rfl h
      | succ k => rfl
    | succ n2 =>
      cases m with
      | zero => rfl
      | succ m2 => simpa [setAt, getAt] using ih m2 n2 (by omega)

theorem planMarkStep_err (ps : PlanStore) (id : String) (p : Plan) (i : Nat)
    (st : StepStatus) (hp : storeFind ps id = some p)
    (hi : i ≥ p.steps.length) :
    planMarkStep ps id i st
      = Except.error ("Invalid step index: " ++ toString i) := by
  unfold planMarkStep
  rw [hp]
  exact if_pos hi

theorem getAt_fallbackMarkCompleted (sts : List StepStatus) (idx : Nat) :
    getAt StepStatus.notStarted (fallbackMarkCompleted sts idx) idx
      = StepStatus.completed := by
  apply getAt_setAt_self
  simp only [List.length_append, List.length_replicate]
  omega

theorem markStepCompleted_fallback (ps : PlanStore) (planId : String)
    (p : Plan) (idx : Nat) (hp : storeFind ps planId = some p) :
    storeFind (markStepCompleted true ps planId (some idx)) planId
      = some { p with stepStatuses := fallbackMarkCompleted p.stepStatuses idx } := by
  unfold markStepCompleted
  simp only [reduceIte, hp]
  exact storeFind_storeSet_self ps planId _

theorem markStepCompleted_marks (sf : Bool) (ps : PlanStore) (planId : String)
    (p : Plan) (idx : Nat) (hp : storeFind ps planId = some p) :
    ∃ p2, storeFind (markStepCompleted sf ps planId (some idx)) planId = some p2
      ∧ effStatus p2 idx = StepStatus.completed := by
  cases sf with
  | true =>
    exact ⟨_, markStepCompleted_fallback ps planId p idx hp,
      getAt_fallbackMarkCompleted p.stepStatuses idx⟩
  | false =>
    by_cases hi : idx < p.steps.length
    · have hmk := planMarkStep_ok ps planId p idx StepStatus.completed hp hi
      have hfind : storeFind (markStepCompleted false ps planId (some idx)) planId
          = some { p with
              stepStatuses :=
                setAt (padStatuses p.stepStatuses (idx + 1)) idx StepStatus.completed
              stepNotes := padNotes p.stepNotes (idx + 1) } := by
        unfold markStepCompleted
        simp only [reduceIte, hmk]
        exact storeFind_storeSet_self ps planId _
      exact ⟨_, hfind, getAt_setAt_pad p.stepStatuses idx StepStatus.completed⟩
    · have hmk := planMarkStep_err ps planId p idx StepStatus.completed hp (by omega)
      have hfind : storeFind (markStepCompleted false ps planId (some idx)) planId
          = some { p with stepStatuses := fallbackMarkCompleted p.stepStatuses idx } := by
        unfold markStepCompleted
        simp only [reduceIte, hmk, hp]
        exact storeFind_storeSet_self ps planId _
      exact ⟨_, hfind, getAt_fallbackMarkCompleted p.stepStatuses idx⟩

theorem getCurrentStepInfo_scan (sf : Bool) (ps : PlanStore) (planId : String)
    (p : Plan) (i : Nat) (hid : planId ≠ "") (hp : storeFind ps planId = some p)
    (hsel : (getCurrentStepInfo sf ps planId).1.1 = some i) :
    scanActive p 0 p.steps.length = some i := by
  cases hscan : scanActive p 0 p.steps.length with
  | none =>
    have hnone : (getCurrentStepInfo sf ps planId).1.1 = none := by
      unfold getCurrentStepInfo
      rw [if_neg hid, hp]
      simp only [hscan]
    rw [hnone] at hsel
    exact absurd hsel (by simp)
  | some j =>
    have hsome : (getCurrentStepInfo sf ps planId).1.1 = some j := by
      unfold getCurrentStepInfo
      rw [if_neg hid, hp]
      simp only [hscan]
    rw [hsome] at hsel
    exact hsel

theorem fallbackMarkInProgress_length (sts : List StepStatus) (i : Nat) :
    (fallbackMarkInProgress sts i).length = max sts.length (i + 1) := by
  unfold fallbackMarkInProgress
  by_cases h : i < sts.length
  · rw [if_pos h, setAt_length]
    omega
  · rw [if_neg h]
    simp only [List.length_append, List.length_replicate, List.length_cons,
      List.length_nil]
    omega

theorem fallbackMarkInProgress_growth (sts : List StepStatus) (i j : Nat)
    (h1 : sts.length ≤ j) (h2 : j < i) :
    getAt StepStatus.notStarted (fallbackMarkInProgress sts i) j
      = StepStatus.notStarted := by
  unfold fallbackMarkInProgress
  rw [if_neg (by omega)]
  have hlen :
      (sts ++ List.replicate (i - sts.length) StepStatus.notStarted).length = i := by
    simp only [List.length_append, List.length_replicate]
    omega
  rw [getAt_append_left _ _ j _ (by rw [hlen]; omega)]
  rw [getAt_append_right _ _ j _ h1]
  exact getAt_replicate _ _ _ _ (by omega)

theorem fallbackMarkCompleted_length (sts : List StepStatus) (idx : Nat) :
    (fallbackMarkCompleted sts idx).length = max sts.length (idx + 1) := by
  unfold fallbackMarkCompleted
  rw [setAt_length]
  simp only [List.length_append, List.length_replicate]
  omega

theorem fallbackMarkCompleted_growth (sts : List StepStatus) (idx j : Nat)
    (h1 : sts.length ≤ j) (h2 : j < idx) :
    getAt StepStatus.notStarted (fallbackMarkCompleted sts idx) j
      = StepStatus.notStarted := by
  unfold fallbackMarkCompleted
  rw [getAt_setAt_ne _ _ _ _ _ (by omega)]
  rw [getAt_append_right _ _ j _ h1]
  exact getAt_replicate _ _ _ _ (by omega)

/-- C7: when a mark-step store command fails, the engine applies the same
status mutation directly to the stored in-memory plan data
(`fallbackMarkInProgress` and `fallbackMarkCompleted` are the literal
fallback blocks of the source), growing `step_statuses` with NOT_STARTED
entries as needed; after step selection returns index `i` the status at
`i` is IN_PROGRESS, and after completion marking the status at the
current index is COMPLETED, whether or not the store command succeeded. -/
theorem spec_c7_inmemory_fallback :
    (∀ ps planId p i, planId ≠ "" → storeFind ps planId = some p →
      (getCurrentStepInfo true ps planId).1.1 = some i →
      storeFind (getCurrentStepInfo true ps planId).2 planId
        = some { p with stepStatuses := fallbackMarkInProgress p.stepStatuses i })
    ∧ (∀ ps planId p idx, storeFind ps planId = some p →
      storeFind (markStepCompleted true ps planId (some idx)) planId
        = some { p with stepStatuses := fallbackMarkCompleted p.stepStatuses idx })
    ∧ (∀ sts i, (fallbackMarkInProgress sts i).length = max sts.length (i + 1)
        ∧ ∀ j, sts.length ≤ j → j < i →
          getAt StepStatus.notStarted (fallbackMarkInProgress sts i) j
            = StepStatus.notStarted)
    ∧ (∀ sts idx, (fallbackMarkCompleted sts idx).length = max sts.length (idx + 1)
        ∧ ∀ j, sts.length ≤ j → j < idx →
          getAt StepStatus.notStarted (fallbackMarkCompleted sts idx) j
            = StepStatus.notStarted)
    ∧ (∀ sf ps planId p i, planId ≠ "" → storeFind ps planId = some p →
      (getCurrentStepInfo sf ps planId).1.1 = some i →
      ∃ p2, storeFind (getCurrentStepInfo sf ps planId).2 planId = some p2
        ∧ effStatus p2 i = StepStatus.inProgress)
    ∧ (∀ sf ps planId p idx, storeFind ps planId = some p →
      ∃ p2, storeFind (markStepCompleted sf ps planId (some idx)) planId = some p2
        ∧ effStatus p2 idx = StepStatus.completed) := by
  refine ⟨?_, ?_, ?_, ?_, ?_, ?_⟩
  · intro ps planId p i hid hp hsel
    have hscan := getCurrentStepInfo_scan true ps planId p i hid hp hsel
    have := getCurrentStepInfo_marks true ps planId p i hid hp hscan
    simpa using this
  · intro ps planId p idx hp
    exact markStepCompleted_fallback ps planId p idx hp
  · intro sts i
    exact ⟨fallbackMarkInProgress_length sts i,
      fun j h1 h2 => fallbackMarkInProgress_growth sts i j h1 h2⟩
  · intro sts idx
    exact ⟨fallbackMarkCompleted_length sts idx,
      fun j h1 h2 => fallbackMarkCompleted_growth sts idx j h1 h2⟩
  · intro sf ps planId p i hid hp hsel
    have hscan := getCurrentStepInfo_scan sf ps planId p i hid hp hsel
    refine ⟨_, getCurrentStepInfo_marks sf ps planId p i hid hp hscan, ?_⟩
    cases sf with
    | true =>
      simp only [reduceIte]
      exact getAt_fallbackMarkInProgress p.stepStatuses i
    | false =>
      simp only [Bool.false_eq_true, reduceIte]
      exact getAt_setAt_pad p.stepStatuses i StepStatus.inProgress
  · intro sf ps planId p idx hp
    exact markStepCompleted_marks sf ps planId p idx hp

theorem spec_c7_inmemory_fallback_witness :
    (∃ p2, storeFind (getCurrentStepInfo true
        [("plan_1", Plan.mk "T" ["a"] [] [])] "plan_1").2 "plan_1" = some p2
      ∧ effStatus p2 0 = StepStatus.inProgress)
    ∧ (∃ p2, storeFind (markStepCompleted true
        [("plan_1", Plan.mk "T" ["a"] [] [])] "plan_1" (some 0)) "plan_1" = some p2
      ∧ effStatus p2 0 = StepStatus.completed) := by
  constructor
  · exact spec_c7_inmemory_fallback.2.2.2.2.1 true
      [("plan_1", Plan.mk "T" ["a"] [] [])] "plan_1" (Plan.mk "T" ["a"] [] []) 0
      (by decide) (by decide) (by decide)
  · exact spec_c7_inmemory_fallback.2.2.2.2.2 true
      [("plan_1", Plan.mk "T" ["a"] [] [])] "plan_1" (Plan.mk "T" ["a"] [] []) 0
      (by decide)

/-- C3: after a step executes normally the engine attempts to mark it
COMPLETED regardless of whether the store command succeeds (in-memory
fallback on failure); when the executor run raises, the exception text
is captured as the textual step result, the store is left untouched, and
the main loop proceeds to the next iteration instead of aborting the
plan. -/
theorem spec_c3_step_completion :
    (∀ sf ps planId p i r, storeFind ps planId = some p →
      (executeStep sf ps planId (some i) (Except.ok r)).1 = r
      ∧ ∃ p2, storeFind (executeStep sf ps planId (some i) (Except.ok r)).2 planId
          = some p2 ∧ effStatus p2 i = StepStatus.completed)
    ∧ (∀ sf ps planId ci e,
        executeStep sf ps planId ci (Except.error e)
          = ("Error executing step " ++ idxStr ci ++ ": " ++ e, ps))
    ∧ (∀ (A : Type) (env : EngineEnv A) (primary : A) (fuel it : Nat)
        (ps ps1 : PlanStore) (acc : String) (idx : Nat) (txt resp e : String),
        getCurrentStepInfo (env.stepEnvs it).inProgFails ps env.planId
          = ((some idx, some txt), ps1) →
        (env.stepEnvs it).oracleExec = Except.ok resp →
        (env.stepEnvs it).runOutcome = Except.error e →
        (env.stepEnvs it).execFinished = false →
        loopRun env primary (fuel + 1) it ps acc
          = loopRun env primary fuel (it + 1) ps1
              (acc ++ ("Error executing step " ++ toString idx ++ ": " ++ e)
                ++ "\n")) := by
  refine ⟨?_, ?_, ?_⟩
  · intro sf ps planId p i r hp
    exact ⟨rfl, markStepCompleted_marks sf ps planId p i hp⟩
  · intro sf ps planId ci e
    rfl
  · intro A env primary fuel it ps ps1 acc idx txt resp e hsel hor hrun hfin
    rw [loopRun]
    simp only [hsel, hor, hrun, hfin, executeStep, idxStr, Bool.false_eq_true,
      reduceIte]

theorem spec_c3_step_completion_witness :
    ((executeStep false [("plan_1", Plan.mk "T" ["a"] [] [])] "plan_1" (some 0)
        (Except.ok "r")).1 = "r"
      ∧ ∃ p2, storeFind (executeStep false [("plan_1", Plan.mk "T" ["a"] [] [])]
          "plan_1" (some 0) (Except.ok "r")).2 "plan_1" = some p2
          ∧ effStatus p2 0 = StepStatus.completed)
    ∧ loopRun
        (EngineEnv.mk "plan_1" [("A", (0 : Nat))] ["A"] "fin"
          (fun _ => StepEnv.mk false false (Except.ok "A") (Except.error "boom") false))
        (0 : Nat) 2 0 [("plan_1", Plan.mk "T" ["a"] [] [])] ""
      = loopRun
          (EngineEnv.mk "plan_1" [("A", (0 : Nat))] ["A"] "fin"
            (fun _ => StepEnv.mk false false (Except.ok "A") (Except.error "boom") false))
          (0 : Nat) 1 1
          [("plan_1", Plan.mk "T" ["a"] [StepStatus.inProgress] [""])]
          ("" ++ ("Error executing step " ++ toString 0 ++ ": " ++ "boom") ++ "\n") := by
  constructor
  · exact spec_c3_step_completion.1 false [("plan_1", Plan.mk "T" ["a"] [] [])]
      "plan_1" (Plan.mk "T" ["a"] [] []) 0 "r" (by decide)
  · exact spec_c3_step_completion.2.2 Nat
      (EngineEnv.mk "plan_1" [("A", (0 : Nat))] ["A"] "fin"
        (fun _ => StepEnv.mk false false (Except.ok "A") (Except.error "boom") false))
      0 1 0 [("plan_1", Plan.mk "T" ["a"] [] [])]
      [("plan_1", Plan.mk "T" ["a"] [StepStatus.inProgress] [""])] ""
      0 "a" "A" "boom" (by decide) rfl rfl rfl

theorem keyMem_of_mem {A : Type} (agents : List (String × A)) (kv : String × A)
    (h : kv ∈ agents) : keyMem agents kv.1 = true := by
  unfold keyMem
  rw [List.any_eq_true]
  exact ⟨kv, h, by simp⟩

theorem find?_first {α : Type} (p : α → Bool) (pre post : List α) (a : α)
    (hpre : ∀ x ∈ pre, p x = false) (ha : p a = true) :
    (pre ++ a :: post).find? p = some a := by
  induction pre with
  | nil => simp [List.find?, ha]
  | cons x xs ih =>
    have hx := hpre x (by simp)
    simp only [List.cons_append, List.find?, hx]
    exact ih (fun y hy => hpre y (by simp [hy]))

theorem getExecutor_type_hit {A : Type} (agents : List (String × A))
    (ks : List String) (primary : A) (resp t : String) (txt : Option String)
    (ht : t ≠ "") (hk : keyMem agents t = true) :
    getExecutor agents ks primary resp (some (StepInfo.mk (some t) txt))
      = (lookupA agents t).getD primary := by
  show (if t ≠ "" ∧ keyMem agents t = true then (lookupA agents t).getD primary
    else llmTier agents ks primary resp (StepInfo.mk (some t) txt))
      = (lookupA agents t).getD primary
  rw [if_pos ⟨ht, hk⟩]

theorem getExecutor_type_miss {A : Type} (agents : List (String × A))
    (ks : List String) (primary : A) (resp : String) (ty : Option String)
    (txt : Option String)
    (hty : ∀ t, ty = some t → t = "" ∨ keyMem agents t = false) :
    getExecutor agents ks primary resp (some (StepInfo.mk ty txt))
      = llmTier agents ks primary resp (StepInfo.mk ty txt) := by
  cases ty with
  | none => rfl
  | some t =>
    show (if t ≠ "" ∧ keyMem agents t = true then (lookupA agents t).getD primary
      else llmTier agents ks primary resp (StepInfo.mk (some t) txt))
        = llmTier agents ks primary resp (StepInfo.mk (some t) txt)
    rcases hty t rfl with h | h
    · rw [if_neg]
      intro hcon
      exact hcon.1 h
    · rw [if_neg]
      intro hcon
      rw [hcon.2] at h
      exact absurd h (by simp)

theorem llm_exact {A : Type} (agents : List (String × A)) (resp : String)
    (ty : Option String) (txt : String) (hk : keyMem agents resp = true) :
    getStepExecutorWithLLM agents resp (some (StepInfo.mk ty (some txt)))
      = some resp := by
  unfold getStepExecutorWithLLM
  simp only [hk, reduceIte]

theorem llm_fuzzy {A : Type} (agents : List (String × A)) (resp : String)
    (ty : Option String) (txt : String) (kv : String × A)
    (hk : keyMem agents resp = false)
    (hf : agents.find? (fun kv2 => fuzzyMatch kv2.1 resp) = some kv) :
    getStepExecutorWithLLM agents resp (some (StepInfo.mk ty (some txt)))
      = some kv.1 := by
  unfold getStepExecutorWithLLM
  simp only [hk, Bool.false_eq_true, reduceIte, hf]

theorem llmTier_of_some {A : Type} (agents : List (String × A)) (ks : List String)
    (primary : A) (resp : String) (si : StepInfo) (r : String)
    (h : getStepExecutorWithLLM agents resp (some si) = some r)
    (hr : r ≠ "") (hk : keyMem agents r = true) :
    llmTier agents ks primary resp si = (lookupA agents r).getD primary := by
  unfold llmTier
  simp only [h]
  rw [if_pos ⟨hr, hk⟩]

theorem llmTier_of_none {A : Type} (agents : List (String × A)) (ks : List String)
    (primary : A) (resp : String) (si : StepInfo)
    (h : getStepExecutorWithLLM agents resp (some si) = none) :
    llmTier agents ks primary resp si = defaultExecutor agents ks primary := by
  unfold llmTier
  simp only [h]

theorem defaultExecutor_of_find {A : Type} (agents : List (String × A))
    (ks : List String) (primary : A) (k : String)
    (h : ks.find? (fun k2 => keyMem agents k2) = some k) :
    defaultExecutor agents ks primary = (lookupA agents k).getD primary := by
  unfold defaultExecutor
  simp only [h]

theorem defaultExecutor_of_none {A : Type} (agents : List (String × A))
    (ks : List String) (primary : A)
    (h : ks.find? (fun k2 => keyMem agents k2) = none) :
    defaultExecutor agents ks primary = primary := by
  unfold defaultExecutor
  simp only [h]

/-- C2: executor selection is a pure function of the step type, the
oracle response, the executor keys and the agents registry (plus the
primary agent it may return), and follows the strict priority of the
source: a truthy step type that is a known key is used directly and the
result does not depend on the oracle response; otherwise a truthy oracle
response that is exactly a known key wins; otherwise the first
fuzzy-matching key wins; otherwise the first `executor_keys` entry
present in `agents`; otherwise the primary agent, so a step always gets
an executor. -/
theorem spec_c2_executor_priority :
    ∀ (A : Type) (agents : List (String × A)) (ks : List String) (primary : A)
      (resp resp2 txt : String) (ty : Option String),
    (∀ t, t ≠ "" → keyMem agents t = true →
      getExecutor agents ks primary resp (some (StepInfo.mk (some t) (some txt)))
        = (lookupA agents t).getD primary
      ∧ getExecutor agents ks primary resp (some (StepInfo.mk (some t) (some txt)))
        = getExecutor agents ks primary resp2 (some (StepInfo.mk (some t) (some txt))))
    ∧ ((∀ t, ty = some t → t = "" ∨ keyMem agents t = false) →
      (resp ≠ "" → keyMem agents resp = true →
        getExecutor agents ks primary resp (some (StepInfo.mk ty (some txt)))
          = (lookupA agents resp).getD primary)
      ∧ (∀ kv, keyMem agents resp = false →
          agents.find? (fun kv2 => fuzzyMatch kv2.1 resp) = some kv → kv.1 ≠ "" →
          getExecutor agents ks primary resp (some (StepInfo.mk ty (some txt)))
            = (lookupA agents kv.1).getD primary)
      ∧ (getStepExecutorWithLLM agents resp (some (StepInfo.mk ty (some txt)))
          = none →
        (∀ k, ks.find? (fun k2 => keyMem agents k2) = some k →
          getExecutor agents ks primary resp (some (StepInfo.mk ty (some txt)))
            = (lookupA agents k).getD primary)
        ∧ (ks.find? (fun k2 => keyMem agents k2) = none →
          getExecutor agents ks primary resp (some (StepInfo.mk ty (some txt)))
            = primary))) := by
  intro A agents ks primary resp resp2 txt ty
  constructor
  · intro t ht hk
    exact ⟨getExecutor_type_hit agents ks primary resp t (some txt) ht hk,
      (getExecutor_type_hit agents ks primary resp t (some txt) ht hk).trans
        (getExecutor_type_hit agents ks primary resp2 t (some txt) ht hk).symm⟩
  · intro hty
    refine ⟨?_, ?_, ?_⟩
    · intro hr hk
      rw [getExecutor_type_miss agents ks primary resp ty (some txt) hty]
      exact llmTier_of_some agents ks primary resp _ resp
        (llm_exact agents resp ty txt hk) hr hk
    · intro kv hk hf hne
      rw [getExecutor_type_miss agents ks primary resp ty (some txt) hty]
      have hmem : kv ∈ agents := List.mem_of_find?_eq_some hf
      exact llmTier_of_some agents ks primary resp _ kv.1
        (llm_fuzzy agents resp ty txt kv hk hf) hne (keyMem_of_mem agents kv hmem)
    · intro hnone
      constructor
      · intro k hkfind
        rw [getExecutor_type_miss agents ks primary resp ty (some txt) hty,
          llmTier_of_none agents ks primary resp _ hnone]
        exact defaultExecutor_of_find agents ks primary k hkfind
      · intro hkfind
        rw [getExecutor_type_miss agents ks primary resp ty (some txt) hty,
          llmTier_of_none agents ks primary resp _ hnone]
        exact defaultExecutor_of_none agents ks primary hkfind

theorem spec_c2_executor_priority_witness :
    getExecutor [("WebAgent", (1 : Nat)), ("SWEAgent", 2)]
      ["WebAgent", "SWEAgent"] 9 "oracle-ignored"
      (some (StepInfo.mk (some "SWEAgent") (some "x")))
      = (lookupA [("WebAgent", (1 : Nat)), ("SWEAgent", 2)] "SWEAgent").getD 9
    ∧ getExecutor [("WebAgent", (1 : Nat)), ("SWEAgent", 2)]
        ["WebAgent", "SWEAgent"] 9 "SWEAgent"
        (some (StepInfo.mk none (some "x")))
        = (lookupA [("WebAgent", (1 : Nat)), ("SWEAgent", 2)] "SWEAgent").getD 9 := by
  constructor
  · exact ((spec_c2_executor_priority Nat [("WebAgent", 1), ("SWEAgent", 2)]
      ["WebAgent", "SWEAgent"] 9 "oracle-ignored" "other" "x" none).1
      "SWEAgent" (by decide) (by decide)).1
  · exact ((spec_c2_executor_priority Nat [("WebAgent", 1), ("SWEAgent", 2)]
      ["WebAgent", "SWEAgent"] 9 "SWEAgent" "other" "x" none).2
      (fun t ht => by simp at ht)).1 (by decide) (by decide)

/-- C6: when the oracle recommendation is not exactly a known key, the
fallback performs the bidirectional case-insensitive substring test
`fuzzyMatch` against each agent key and returns the first matching key
in dict iteration order; in particular the response "webagent" with real
key "WebAgent" yields "WebAgent". -/
theorem spec_c6_fuzzy_first_match :
    (∀ (A : Type) (pre post : List (String × A)) (kv : String × A)
      (resp txt : String) (ty : Option String),
      keyMem (pre ++ kv :: post) resp = false →
      (∀ kv2, kv2 ∈ pre → fuzzyMatch kv2.1 resp = false) →
      fuzzyMatch kv.1 resp = true →
      getStepExecutorWithLLM (pre ++ kv :: post) resp
        (some (StepInfo.mk ty (some txt))) = some kv.1)
    ∧ getStepExecutorWithLLM [("WebAgent", (0 : Nat))] "webagent"
        (some (StepInfo.mk none (some "step"))) = some "WebAgent"
    ∧ getExecutor [("WebAgent", (0 : Nat))] ["WebAgent"] (1 : Nat) "webagent"
        (some (StepInfo.mk none (some "step"))) = (0 : Nat) := by
  refine ⟨?_, by decide, by decide⟩
  intro A pre post kv resp txt ty hk hpre hkv
  exact llm_fuzzy (pre ++ kv :: post) resp ty txt kv hk
    (find?_first (fun kv2 => fuzzyMatch kv2.1 resp) pre post kv hpre hkv)

theorem spec_c6_fuzzy_first_match_witness :
    getStepExecutorWithLLM
      [("DataMiner", (7 : Nat)), ("WebAgent", 0)] "webagent"
      (some (StepInfo.mk none (some "t"))) = some "WebAgent" := by
  exact spec_c6_fuzzy_first_match.1 Nat [("DataMiner", (7 : Nat))] []
    ("WebAgent", 0) "webagent" "t" none (by decide) (by decide) (by decide)

theorem findUsablePlanning_none (calls : List ToolCall)
    (h : ∀ c ∈ calls, c.name ≠ "planning" ∨ c.cmd = none) :
    findUsablePlanning calls = none := by
  induction calls with
  | nil => rfl
  | cons c rest ih =>
    have hc := h c (by simp)
    have hrest := ih (fun x hx => h x (by simp [hx]))
    unfold findUsablePlanning
    by_cases hn : c.name = "planning"
    · rw [if_pos hn]
      rcases hc with h1 | h1
      · exact absurd hn h1
      · rw [h1]
        exact hrest
    · rw [if_neg hn]
      exact hrest

theorem createInitialPlan_default (ps : PlanStore) (id request : String)
    (calls : List ToolCall)
    (hcalls : ∀ c ∈ calls, c.name ≠ "planning" ∨ c.cmd = none)
    (hfresh : storeFind ps id = none) :
    createInitialPlan ps id request calls
      = Except.ok (storeSet ps id
          (Plan.mk (defaultTitle request) (defaultSteps request)
            (List.replicate (defaultSteps request).length StepStatus.notStarted)
            (List.replicate (defaultSteps request).length ""))) := by
  unfold createInitialPlan
  rw [findUsablePlanning_none calls hcalls]
  unfold planCreate
  rw [hfresh]

/-- C5: when the oracle tool-selecting call yields no usable "planning"
tool call, the engine creates a deterministic 3-step default plan whose
step texts follow the character heuristic of the source: any character
with code point above the CJK threshold 0x3000 selects the CJK phrasing;
otherwise any character in the Cyrillic block U+0400 to U+04FF selects
the Cyrillic phrasing; otherwise the Latin steps; and for input "hi" the
created plan has exactly the 3 Latin steps. -/
theorem spec_c5_default_plan :
    (∀ ps id request calls,
      (∀ c ∈ calls, c.name ≠ "planning" ∨ c.cmd = none) →
      storeFind ps id = none →
      ∃ ps2, createInitialPlan ps id request calls = Except.ok ps2
        ∧ storeFind ps2 id
            = some (Plan.mk (defaultTitle request) (defaultSteps request)
                (List.replicate (defaultSteps request).length StepStatus.notStarted)
                (List.replicate (defaultSteps request).length "")))
    ∧ (∀ request, hasCjkChars request = true →
        defaultSteps request = ["分析需求", "执行任务", "验证结果"])
    ∧ (∀ request, hasCjkChars request = false → hasCyrillicChars request = true →
        defaultSteps request
          = ["Анализ запроса", "Выполнение задачи", "Проверка результатов"])
    ∧ (∀ request, hasCjkChars request = false → hasCyrillicChars request = false →
        defaultSteps request = ["Analyze request", "Execute task", "Verify results"])
    ∧ (∀ request c, c ∈ request.toList → 0x3000 < c.toNat →
        hasCjkChars request = true)
    ∧ (∀ request c, c ∈ request.toList → 0x0400 ≤ c.toNat → c.toNat ≤ 0x04FF →
        hasCyrillicChars request = true)
    ∧ createInitialPlan [] "plan_1" "hi" []
        = Except.ok [("plan_1",
            Plan.mk "Plan for: hi"
              ["Analyze request", "Execute task", "Verify results"]
              [StepStatus.notStarted, StepStatus.notStarted, StepStatus.notStarted]
              ["", "", ""])] := by
  refine ⟨?_, ?_, ?_, ?_, ?_, ?_, ?_⟩
  · intro ps id request calls hcalls hfresh
    exact ⟨_, createInitialPlan_default ps id request calls hcalls hfresh,
      storeFind_storeSet_self ps id _⟩
  · intro request h
    unfold defaultSteps
    rw [if_pos h]
  · intro request h1 h2
    unfold defaultSteps
    rw [if_neg (by rw [h1]; simp), if_pos h2]
  · intro request h1 h2
    unfold defaultSteps
    rw [if_neg (by rw [h1]; simp), if_neg (by rw [h2]; simp)]
  · intro request c hc hcjk
    unfold hasCjkChars
    rw [List.any_eq_true]
    exact ⟨c, hc, by simpa using hcjk⟩
  · intro request c hc h1 h2
    unfold hasCyrillicChars
    rw [List.any_eq_true]
    refine ⟨c, hc, ?_⟩
    simp only [Bool.and_eq_true, decide_eq_true_eq]
    omega
  · rfl

theorem spec_c5_default_plan_witness :
    ∃ ps2, createInitialPlan [] "p" "hallo" [ToolCall.mk "other" none]
        = Except.ok ps2
      ∧ storeFind ps2 "p"
          = some (Plan.mk (defaultTitle "hallo") (defaultSteps "hallo")
              (List.replicate (defaultSteps "hallo").length StepStatus.notStarted)
              (List.replicate (defaultSteps "hallo").length "")) :=
  spec_c5_default_plan.1 [] "p" "hallo" [ToolCall.mk "other" none]
    (by decide) (by decide)

theorem planTextBody_eq (planId : String) (p : Plan) :
    planTextBody planId p = Except.ok
      ((if p.steps.length = 0 then 0
        else (countStatus (padStatuses p.stepStatuses p.steps.length)
            StepStatus.completed : ℚ) / (p.steps.length : ℚ) * 100),
       planTextRender planId p
        (if p.steps.length = 0 then 0
          else (countStatus (padStatuses p.stepStatuses p.steps.length)
              StepStatus.completed : ℚ) / (p.steps.length : ℚ) * 100)) := by
  by_cases h : p.steps.length = 0
  · simp [planTextBody, h, Except.map]
  · have h2 : (p.steps.length : ℚ) ≠ 0 := Nat.cast_ne_zero.mpr h
    simp [planTextBody, pyDivQ, h, h2, Except.map, Nat.pos_of_ne_zero]

/-- C9: the rendering computes the progress as completed divided by the
total times 100, the total-zero case short-circuits to progress 0 with
no division (the division is modelled as checked, so an attempted
division by zero would surface as an error), and the rendering never
raises: for every plan, in particular the empty one, the body returns a
rendered string which the outer function passes through. -/
theorem spec_c9_progress :
    ∀ planId p, ∃ q s,
      planTextBody planId p = Except.ok (q, s)
      ∧ (p.steps.length = 0 → q = 0)
      ∧ (p.steps.length ≠ 0 →
          q = (countStatus (padStatuses p.stepStatuses p.steps.length)
              StepStatus.completed : ℚ) / (p.steps.length : ℚ) * 100)
      ∧ (∀ ps, storeFind ps planId = some p →
          generatePlanTextFromStorage ps planId = s) := by
  intro planId p
  refine ⟨_, _, planTextBody_eq planId p, ?_, ?_, ?_⟩
  · intro h
    rw [if_pos h]
  · intro h
    rw [if_neg h]
  · intro ps hfind
    simp only [generatePlanTextFromStorage, hfind, planTextBody_eq]

theorem spec_c9_progress_witness :
    ∃ q s, planTextBody "x" (Plan.mk "T" [] [] []) = Except.ok (q, s)
      ∧ q = 0
      ∧ generatePlanTextFromStorage [("x", Plan.mk "T" [] [] [])] "x" = s := by
  obtain ⟨q, s, h1, h2, _, h4⟩ := spec_c9_progress "x" (Plan.mk "T" [] [] [])
  exact ⟨q, s, h1, h2 rfl, h4 _ (by decide)⟩

/-- C4: `execute` never propagates an exception to its caller: every
raise inside the body is converted at the outermost boundary into the
failure string "Execution failed: ...", so the caller never observes a
raised outcome; and when plan creation runs without raising but the plan
id is absent from the store afterwards, the run returns the fatal
failure string "Failed to create plan for: ..." without retrying. -/
theorem spec_c4_no_exception_escape :
    ∀ (A : Type) (env : EngineEnv A) (primary? : Option A) (inputText : String)
      (ask : Except String (List ToolCall)) (ps0 : PlanStore) (fuel : Nat),
    (∀ e, executeMethod env primary? inputText ask ps0 fuel ≠ LoopOut.raised e)
    ∧ (∀ e, executeBody env primary? inputText ask ps0 fuel = LoopOut.raised e →
        executeMethod env primary? inputText ask ps0 fuel
          = LoopOut.done ("Execution failed: " ++ e))
    ∧ (∀ primary calls ps1, primary? = some primary → inputText ≠ "" →
        ask = Except.ok calls →
        createInitialPlan ps0 env.planId inputText calls = Except.ok ps1 →
        storeMem ps1 env.planId = false →
        executeMethod env primary? inputText ask ps0 fuel
          = LoopOut.done ("Failed to create plan for: " ++ inputText)) := by
  intro A env primary? inputText ask ps0 fuel
  refine ⟨?_, ?_, ?_⟩
  · intro e
    unfold executeMethod
    cases hbody : executeBody env primary? inputText ask ps0 fuel <;> simp
  · intro e h
    unfold executeMethod
    rw [h]
  · intro primary calls ps1 hprim hinput hask hcreate hmem
    simp only [executeMethod, executeBody, hprim, hask, hcreate, hmem, hinput,
      Bool.false_eq_true, reduceIte]

theorem spec_c4_no_exception_escape_witness :
    (executeMethod
        (EngineEnv.mk "plan_1" [("A", (0 : Nat))] ["A"] "done"
          (fun _ => StepEnv.mk false false (Except.ok "A") (Except.ok "r") false))
        (some (0 : Nat)) "hi" (Except.ok []) [] 5 ≠ LoopOut.raised "x")
    ∧ executeMethod
        (EngineEnv.mk "plan_1" [("A", (0 : Nat))] ["A"] "done"
          (fun _ => StepEnv.mk false false (Except.ok "A") (Except.ok "r") false))
        (some (0 : Nat)) "hi"
        (Except.ok [ToolCall.mk "planning" (some PlanCmd.delete)])
        [("plan_1", Plan.mk "T" ["a"] [] [])] 5
        = LoopOut.done ("Failed to create plan for: " ++ "hi") := by
  constructor
  · exact (spec_c4_no_exception_escape Nat
      (EngineEnv.mk "plan_1" [("A", (0 : Nat))] ["A"] "done"
        (fun _ => StepEnv.mk false false (Except.ok "A") (Except.ok "r") false))
      (some 0) "hi" (Except.ok []) [] 5).1 "x"
  · exact (spec_c4_no_exception_escape Nat
      (EngineEnv.mk "plan_1" [("A", (0 : Nat))] ["A"] "done"
        (fun _ => StepEnv.mk false false (Except.ok "A") (Except.ok "r") false))
      (some 0) "hi" (Except.ok [ToolCall.mk "planning" (some PlanCmd.delete)])
      [("plan_1", Plan.mk "T" ["a"] [] [])] 5).2.2 0
      [ToolCall.mk "planning" (some PlanCmd.delete)] []
      rfl (by decide) rfl (by rfl) rfl

/-- C8: evaluation of the special-tool handlers at the termination tool.
The claim states that every executor agent cleans up and transitions to
FINISHED without raising; WebAgent and SWEAgent do, but DataMiner looks
up the browser tool, which is absent from its collection, and the
unguarded cleanup call on the None result raises, so the handler fails
on DataMiner; non-special names are no-ops for all agents. -/
theorem spec_c8_special_tool_handlers :
    dataMinerHandleSpecialTool "terminate" AgState.running
      = Except.error "AttributeError: NoneType has no attribute cleanup"
    ∧ webHandleSpecialTool "terminate" AgState.running
        = Except.ok (true, AgState.finished)
    ∧ webHandleSpecialTool "browser_use" AgState.running
        = Except.ok (true, AgState.finished)
    ∧ sweHandleSpecialTool "terminate" AgState.running
        = Except.ok (false, AgState.finished)
    ∧ dataMinerHandleSpecialTool "python_execute" AgState.running
        = Except.ok (false, AgState.running)
    ∧ webHandleSpecialTool "web_search" AgState.running
        = Except.ok (false, AgState.running)
    ∧ sweHandleSpecialTool "bash" AgState.running
        = Except.ok (false, AgState.running) := by
  exact ⟨rfl, rfl, rfl, rfl, rfl, rfl, rfl⟩

/-- C10: whenever `current_url` is truthy, `WebAgent.think` assigns
`next_step_prompt` to the "Current URL: ..." line prepended to its
previous value before delegating to the parent, so URL prefix lines
accumulate across successive think cycles rather than being replaced by
the latest URL. -/
theorem spec_c10_prompt_accumulates :
    (∀ u p, u ≠ "" →
      (webThink (WebAgentState.mk (some u) p)).nextStepPrompt
        = "Current URL: " ++ u ++ "\n" ++ p)
    ∧ (∀ u1 u2 p, u1 ≠ "" → u2 ≠ "" →
      (webThink (WebAgentState.mk (some u2)
          (webThink (WebAgentState.mk (some u1) p)).nextStepPrompt)).nextStepPrompt
        = "Current URL: " ++ u2 ++ "\n"
            ++ ("Current URL: " ++ u1 ++ "\n" ++ p))
    ∧ (∀ p, (webThink (WebAgentState.mk none p)).nextStepPrompt = p) := by
  refine ⟨?_, ?_, ?_⟩
  · intro u p hu
    simp [webThink, webThinkPrompt, pyTruthyStr, hu]
  · intro u1 u2 p h1 h2
    simp [webThink, webThinkPrompt, pyTruthyStr, h1, h2]
  · intro p
    rfl

theorem spec_c10_prompt_accumulates_witness :
    (webThink (WebAgentState.mk (some "b.example")
        (webThink (WebAgentState.mk (some "a.example") "GO")).nextStepPrompt)).nextStepPrompt
      = "Current URL: " ++ "b.example" ++ "\n"
          ++ ("Current URL: " ++ "a.example" ++ "\n" ++ "GO") :=
  spec_c10_prompt_accumulates.2.1 "a.example" "b.example" "GO"
    (by decide) (by decide)
